import Mathlib

/-!
Shallow embedding of the text-preprocessing pipeline in src/preprocessing.py.

Text cells are modelled as Lean String (a list of Chars); a pandas DataFrame
is a list of records; nullable cells are Option values.  The combined regular
expression of replace_text,
    <.*?> | \$.*?\$ | \n | @\w+ | [+-]?\d+ | \[.+\]
is embedded as an explicit scanner with Python re semantics: scan left to
right, at each position try the alternatives in listed order, delete the
first match found and continue after it, otherwise keep the character and
advance by one.  The dot of the regex matches any character except a newline;
word characters are modelled as ASCII alphanumerics plus underscore together
with the dotted capital I, and str.lower as the ASCII case shift extended
with the one one-to-many special case of Unicode lowercasing, the dotted
capital I (U+0130) lowercasing to 'i' followed by the combining dot above
(U+0307).
-/

/-- One-to-one part of the str.lower model: ASCII uppercase letters
(codepoints 65-90) are shifted by 32, every other character is unchanged;
the one-to-many special case lives in lowerCharSeq. -/
def lowerChar (c : Char) : Char :=
  if 65 ≤ c.toNat ∧ c.toNat ≤ 90 then Char.ofNat (c.toNat + 32) else c

/-- Model of Python str.lower on one character, including the one-to-many
special case of Unicode lowercasing: the dotted capital I (U+0130)
lowercases to 'i' followed by the combining dot above (U+0307); ASCII
uppercase letters shift by 32; every other character is returned unchanged.
The remaining Unicode simple case mappings are one-to-one between letters
and omitted: none of them changes which noise pattern matches. -/
def lowerCharSeq (c : Char) : List Char :=
  if c = '\u0130' then ['i', '\u0307'] else [lowerChar c]

/-- str.lower over a character list: concatenation of the per-character
lowercase sequences. -/
def lowerChars : List Char → List Char
  | [] => []
  | c :: rest => lowerCharSeq c ++ lowerChars rest

/-- Model of the regex class \w (word character): ASCII letter, digit or
underscore, plus the dotted capital I (U+0130), the one non-ASCII letter
appearing in this development (Python matches every Unicode alphanumeric;
combining marks such as U+0307 are not word characters there either). -/
def isWordChar (c : Char) : Bool :=
  decide ((65 ≤ c.toNat ∧ c.toNat ≤ 90) ∨ (97 ≤ c.toNat ∧ c.toNat ≤ 122) ∨
    (48 ≤ c.toNat ∧ c.toNat ≤ 57) ∨ c.toNat = 95 ∨ c.toNat = 304)

/-- Model of the regex class \d (decimal digit 0-9). -/
def isDigitChar (c : Char) : Bool :=
  decide (48 ≤ c.toNat ∧ c.toNat ≤ 57)

/-- Non-greedy scan used for the patterns <.*?> and \$.*?\$ : index of the
first occurrence of the closing character, failing on a newline or at the end
of the string (the dot of the regex does not match a newline). -/
def findClose (cl : Char) : List Char → Option Nat
  | [] => none
  | c :: rest =>
    if c = cl then some 0
    else if c = '\n' then none
    else (findClose cl rest).map (· + 1)

/-- Index of the last occurrence of a closing square bracket in a list. -/
def lastBracket : List Char → Option Nat
  | [] => none
  | c :: rest =>
    match lastBracket rest with
    | some j => some (j + 1)
    | none => if c = ']' then some 0 else none

/-- Greedy scan of the pattern \[.+\] after its opening bracket: the closing
bracket chosen is the last one reachable without crossing a newline, and at
least one character must stand between the brackets. -/
def tagClose (rest : List Char) : Option Nat :=
  (lastBracket (rest.takeWhile (fun c => c != '\n'))).bind
    (fun j => if j = 0 then none else some j)

/-- Length of the match of the combined pattern
<.*?> | \$.*?\$ | \n | @\w+ | [+-]?\d+ | \[.+\] at the head of the list,
trying the alternatives in source order, or none when no alternative
matches here. -/
def unionMatch : List Char → Option Nat
  | [] => none
  | c :: rest =>
    if c = '<' then (findClose '>' rest).map (· + 2)
    else if c = '$' then (findClose '$' rest).map (· + 2)
    else if c = '\n' then some 1
    else if c = '@' then
      (if (rest.takeWhile isWordChar).length = 0 then none
       else some ((rest.takeWhile isWordChar).length + 1))
    else if c = '+' ∨ c = '-' then
      (if (rest.takeWhile isDigitChar).length = 0 then none
       else some ((rest.takeWhile isDigitChar).length + 1))
    else if isDigitChar c then some ((rest.takeWhile isDigitChar).length + 1)
    else if c = '[' then (tagClose rest).map (· + 2)
    else none

/-- Scanner of re.sub(combined, '', s): the first argument counts characters
of the current match still to be skipped; at skip count zero the union
pattern is tried at the current position, a match is deleted and its
remaining length skipped, otherwise the character is kept. -/
def subAux : Nat → List Char → List Char
  | _, [] => []
  | skip + 1, _ :: rest => subAux skip rest
  | 0, c :: rest =>
    match unionMatch (c :: rest) with
    | some n => subAux (n - 1) rest
    | none => c :: subAux 0 rest

/-- Deletion of every non-overlapping leftmost match of the combined noise
pattern, as performed by re.sub(combined_re, '', s). -/
def subAll (s : List Char) : List Char :=
  subAux 0 s

/-- The string-level noise stripping applied to one text cell. -/
def replaceStr (s : String) : String :=
  String.mk (subAll s.data)

/-- The string-level lowercasing applied to one text cell. -/
def lowerStr (s : String) : String :=
  String.mk (lowerChars s.data)

/-- Modelled from the spec: nltk.tokenize.word_tokenize is an external
dependency not present in the repository; the spec describes the default
tokenizer as a standard word-level tokenizer that splits on whitespace and
punctuation boundaries, retaining punctuation as separate tokens.  The
accumulator holds the reversed current word-character run. -/
def tokenAux : List Char → List Char → List (List Char)
  | acc, [] => if acc = [] then [] else [acc.reverse]
  | acc, c :: rest =>
    if isWordChar c then tokenAux (c :: acc) rest
    else
      (if acc = [] then [] else [acc.reverse]) ++
        (if c.isWhitespace then [] else [[c]]) ++ tokenAux [] rest

/-- Modelled from the spec: word-level tokenization of a string into maximal
word-character runs and single punctuation characters, whitespace discarded
(the exact token boundaries of nltk are external; the spec example
"Hello, world!" to Hello / comma / world / bang is reproduced). -/
def word_tokenize (s : String) : List String :=
  (tokenAux [] s.data).map String.mk

/-- The default tokenizer argument of tokenize, lifted to nullable cells:
nltk word_tokenize only accepts strings and raises on a null value, which is
modelled by none. -/
def defaultTokenizer (t : Option String) : Option (List String) :=
  match t with
  | some s => some (word_tokenize s)
  | none => none

/-- One record of the loaded DataFrame: three nullable Int64 identifiers, a
nullable string text and a categorical label (nullable). -/
structure Row where
  post_id : Option Int
  parent_id : Option Int
  comment_id : Option Int
  text : Option String
  category : Option String
deriving DecidableEq

/-- A record after the tokenize stage: the same fields plus the added tokens
column. -/
structure TokRow where
  post_id : Option Int
  parent_id : Option Int
  comment_id : Option Int
  text : Option String
  category : Option String
  tokens : List String
deriving DecidableEq

/-- lowercase: df.assign(text=lambda x: x.text.str.lower()); the .str
accessor maps over the column and lets null values pass through. -/
def lowercase (df : List Row) : List Row :=
  df.map (fun r => { r with text := r.text.map lowerStr })

/-- replace_text: df.assign(text=lambda x: x.text.str.replace(combined_re,
'')); the .str accessor maps over the column and lets null values pass
through. -/
def replace_text (df : List Row) : List Row :=
  df.map (fun r => { r with text := r.text.map replaceStr })

/-- x.text.apply(tokenizer): the tokenizer receives every raw cell value,
null included; a tokenizer failure (modelled by none) aborts the whole
stage, as a raised exception would. -/
def tokenizeTable (tokenizer : Option String → Option (List String)) :
    List Row → Option (List TokRow)
  | [] => some []
  | r :: rest =>
    match tokenizer r.text with
    | none => none
    | some ts =>
      match tokenizeTable tokenizer rest with
      | none => none
      | some out =>
        some (⟨r.post_id, r.parent_id, r.comment_id, r.text, r.category, ts⟩ :: out)

/-- tokenize: df.assign(tokens=lambda x: x.text.apply(tokenizer)). -/
def tokenize (df : List Row) (tokenizer : Option String → Option (List String)) :
    Option (List TokRow) :=
  tokenizeTable tokenizer df

/-- The failure cases of the loader named by the spec. -/
inductive DataLoadError where
  | fileNotFound
  | coercionFailure
deriving DecidableEq

/-- One raw CSV record before type coercion: each cell an optional string
(none models an empty cell, read as null). -/
structure RawRow where
  post_id : Option String
  parent_id : Option String
  comment_id : Option String
  text : Option String
  category : Option String
deriving DecidableEq

/-- Decimal value of a digit list. -/
def digitsVal (l : List Char) : Nat :=
  l.foldl (fun acc c => acc * 10 + (c.toNat - 48)) 0

/-- A non-empty all-digit list parses to its decimal value. -/
def parseDigits (l : List Char) : Option Nat :=
  if l = [] then none
  else if l.all isDigitChar then some (digitsVal l) else none

/-- Modelled from the spec: the Int64 coercion of pandas accepts an optional
sign followed by digits and rejects everything else. -/
def parseInt64 (s : String) : Option Int :=
  match s.data with
  | '-' :: rest => (parseDigits rest).map (fun n => -(n : Int))
  | '+' :: rest => (parseDigits rest).map (fun n => (n : Int))
  | l => (parseDigits l).map (fun n => (n : Int))

/-- Coercion of one identifier cell to nullable Int64. -/
def coerceIntCell (cell : Option String) : Except DataLoadError (Option Int) :=
  match cell with
  | none => Except.ok none
  | some s =>
    match parseInt64 s with
    | some n => Except.ok (some n)
    | none => Except.error DataLoadError.coercionFailure

/-- Coercion of one raw record to the declared dtypes: the three identifier
columns to nullable Int64, text to nullable string, category kept as its
label. -/
def coerceRow (r : RawRow) : Except DataLoadError Row :=
  match coerceIntCell r.post_id with
  | Except.error e => Except.error e
  | Except.ok p =>
    match coerceIntCell r.parent_id with
    | Except.error e => Except.error e
    | Except.ok q =>
      match coerceIntCell r.comment_id with
      | Except.error e => Except.error e
      | Except.ok c => Except.ok ⟨p, q, c, r.text, r.category⟩

/-- Coercion of all records, failing on the first bad cell. -/
def coerceRows : List RawRow → Except DataLoadError (List Row)
  | [] => Except.ok []
  | r :: rest =>
    match coerceRow r with
    | Except.error e => Except.error e
    | Except.ok row =>
      match coerceRows rest with
      | Except.error e => Except.error e
      | Except.ok rows => Except.ok (row :: rows)

/-- Modelled from the spec: pd.read_csv is an external dependency, modelled
as reading from an abstract file system fs, failing when the file is missing
or unreadable (fs gives none) and coercing every column to its declared
dtype; with nrows given only the first nrows records are read. -/
def load_data (fs : String → Option (List RawRow)) (file_name : String)
    (nrows : Option Nat) : Except DataLoadError (List Row) :=
  match fs file_name with
  | none => Except.error DataLoadError.fileNotFound
  | some rows =>
    match nrows with
    | some n => coerceRows (rows.take n)
    | none => coerceRows rows

/-- Errors a pipeline run can surface: a load failure or a raised
tokenization error. -/
inductive PipelineError where
  | load (e : DataLoadError)
  | tokenization
deriving DecidableEq

/-- preprocess: load_data(file_name).pipe(lowercase).pipe(replace_text)
.pipe(tokenize); an exception raised by any stage aborts the run and is
surfaced to the caller. -/
def preprocess (fs : String → Option (List RawRow)) (file_name : String) :
    Except PipelineError (List TokRow) :=
  match load_data fs file_name none with
  | Except.error e => Except.error (PipelineError.load e)
  | Except.ok df =>
    match tokenize (replace_text (lowercase df)) defaultTokenizer with
    | some out => Except.ok out
    | none => Except.error PipelineError.tokenization

/-- Index of the first opening square bracket of a list (spec-side helper
used to state the greedy-bracket claim). -/
def firstLB : List Char → Option Nat
  | [] => none
  | c :: rest => if c = '[' then some 0 else (firstLB rest).map (· + 1)

theorem tokenizeTable_some (tok : Option String → Option (List String)) :
    ∀ (df : List Row) (out : List TokRow), tokenizeTable tok df = some out →
      out.length = df.length ∧
      (∀ i : Nat, (out[i]?).map TokRow.post_id = (df[i]?).map Row.post_id) ∧
      (∀ (i : Nat) (r : Row), df[i]? = some r →
        (out[i]?).map TokRow.tokens = tok r.text) := by
  intro df
  induction df with
  | nil =>
    intro out h
    simp only [tokenizeTable, Option.some.injEq] at h
    subst h
    refine ⟨rfl, fun i => rfl, fun i r hi => by simp at hi⟩
  | cons r rest ih =>
    intro out h
    simp only [tokenizeTable] at h
    cases ht : tok r.text with
    | none => rw [ht] at h; cases h
    | some ts =>
      rw [ht] at h
      cases hr : tokenizeTable tok rest with
      | none => rw [hr] at h; cases h
      | some outRest =>
        rw [hr] at h
        simp only [Option.some.injEq] at h
        subst h
        obtain ⟨hlen, hids, htoks⟩ := ih outRest hr
        refine ⟨by simp [hlen], ?_, ?_⟩
        · intro i
          cases i with
          | zero => simp
          | succ k => simpa using hids k
        · intro i r' hi
          cases i with
          | zero =>
            simp only [List.getElem?_cons_zero, Option.some.injEq] at hi
            subst hi
            simpa using ht.symm
          | succ k =>
            simp only [List.getElem?_cons_succ] at hi ⊢
            exact htoks k r' hi

/-- C1: every stage keeps the row count and the positional identity of the
rows: lowercase and replace_text return tables of the same length whose i-th
row carries the i-th input row's post_id, and tokenize, when it returns a
table at all, does the same. -/
theorem spec_C1_row_invariance :
    ∀ (df : List Row) (tokenizer : Option String → Option (List String))
      (out : List TokRow),
      ((lowercase df).length = df.length ∧
        (replace_text df).length = df.length ∧
        ∀ i : Nat,
          ((lowercase df)[i]?).map Row.post_id = (df[i]?).map Row.post_id ∧
          ((replace_text df)[i]?).map Row.post_id = (df[i]?).map Row.post_id) ∧
      (tokenize df tokenizer = some out →
        out.length = df.length ∧
        ∀ i : Nat, (out[i]?).map TokRow.post_id = (df[i]?).map Row.post_id) := by
  intro df tok out
  refine ⟨⟨by simp [lowercase], by simp [replace_text], ?_⟩, ?_⟩
  · intro i
    constructor <;> cases h : df[i]? <;>
      simp [lowercase, replace_text, List.getElem?_map, h]
  · intro h
    obtain ⟨hlen, hids, _⟩ := tokenizeTable_some tok df out h
    exact ⟨hlen, hids⟩

theorem spec_C1_witness :
    (((lowercase [(⟨some 5, none, none, some "a", some "q"⟩ : Row)]).length =
        [(⟨some 5, none, none, some "a", some "q"⟩ : Row)].length ∧
      (replace_text [(⟨some 5, none, none, some "a", some "q"⟩ : Row)]).length =
        [(⟨some 5, none, none, some "a", some "q"⟩ : Row)].length ∧
      ∀ i : Nat,
        (((lowercase [(⟨some 5, none, none, some "a", some "q"⟩ : Row)])[i]?).map Row.post_id =
          (([(⟨some 5, none, none, some "a", some "q"⟩ : Row)])[i]?).map Row.post_id) ∧
        (((replace_text [(⟨some 5, none, none, some "a", some "q"⟩ : Row)])[i]?).map Row.post_id =
          (([(⟨some 5, none, none, some "a", some "q"⟩ : Row)])[i]?).map Row.post_id)) ∧
    ([(⟨some 5, none, none, some "a", some "q", ["a"]⟩ : TokRow)].length =
        [(⟨some 5, none, none, some "a", some "q"⟩ : Row)].length ∧
      ∀ i : Nat,
        (([(⟨some 5, none, none, some "a", some "q", ["a"]⟩ : TokRow)])[i]?).map TokRow.post_id =
          (([(⟨some 5, none, none, some "a", some "q"⟩ : Row)])[i]?).map Row.post_id)) :=
  ⟨(spec_C1_row_invariance [⟨some 5, none, none, some "a", some "q"⟩] defaultTokenizer
      [⟨some 5, none, none, some "a", some "q", ["a"]⟩]).1,
   (spec_C1_row_invariance [⟨some 5, none, none, some "a", some "q"⟩] defaultTokenizer
      [⟨some 5, none, none, some "a", some "q", ["a"]⟩]).2 (by decide)⟩

/-- C5: a row with null text keeps null text through the Case Normalizer and
the Noise Stripper; both stages are total functions, so no error can arise. -/
theorem spec_C5_null_propagation :
    ∀ (df : List Row) (i : Nat),
      (df[i]?).map Row.text = some none →
      ((lowercase df)[i]?).map Row.text = some none ∧
      ((replace_text df)[i]?).map Row.text = some none := by
  intro df i h
  cases hd : df[i]? with
  | none => rw [hd] at h; cases h
  | some r =>
    rw [hd] at h
    simp only [Option.map_some', Option.some.injEq] at h
    constructor <;> simp [lowercase, replace_text, List.getElem?_map, hd, h]

theorem spec_C5_witness :
    (((lowercase [(⟨some 1, none, none, none, some "q"⟩ : Row)])[0]?).map Row.text =
      some none) ∧
    (((replace_text [(⟨some 1, none, none, none, some "q"⟩ : Row)])[0]?).map Row.text =
      some none) :=
  spec_C5_null_propagation [⟨some 1, none, none, none, some "q"⟩] 0 (by decide)

/-- C6: the Case Normalizer and the Noise Stripper change only the text
field; the identifier fields and the category of every row are untouched. -/
theorem spec_C6_frame :
    ∀ (df : List Row) (i : Nat) (r r' : Row),
      df[i]? = some r →
      ((lowercase df)[i]? = some r' →
        r'.post_id = r.post_id ∧ r'.parent_id = r.parent_id ∧
        r'.comment_id = r.comment_id ∧ r'.category = r.category) ∧
      ((replace_text df)[i]? = some r' →
        r'.post_id = r.post_id ∧ r'.parent_id = r.parent_id ∧
        r'.comment_id = r.comment_id ∧ r'.category = r.category) := by
  intro df i r r' hd
  constructor <;> intro h
  · simp only [lowercase, List.getElem?_map, hd, Option.map_some',
      Option.some.injEq] at h
    subst h
    exact ⟨rfl, rfl, rfl, rfl⟩
  · simp only [replace_text, List.getElem?_map, hd, Option.map_some',
      Option.some.injEq] at h
    subst h
    exact ⟨rfl, rfl, rfl, rfl⟩

theorem spec_C6_witness :
    ((⟨some 7, some 3, none, some "x y", some "q"⟩ : Row).post_id =
        (⟨some 7, some 3, none, some "X Y", some "q"⟩ : Row).post_id ∧
      (⟨some 7, some 3, none, some "x y", some "q"⟩ : Row).parent_id =
        (⟨some 7, some 3, none, some "X Y", some "q"⟩ : Row).parent_id ∧
      (⟨some 7, some 3, none, some "x y", some "q"⟩ : Row).comment_id =
        (⟨some 7, some 3, none, some "X Y", some "q"⟩ : Row).comment_id ∧
      (⟨some 7, some 3, none, some "x y", some "q"⟩ : Row).category =
        (⟨some 7, some 3, none, some "X Y", some "q"⟩ : Row).category) :=
  ((spec_C6_frame [⟨some 7, some 3, none, some "X Y", some "q"⟩] 0
      ⟨some 7, some 3, none, some "X Y", some "q"⟩
      ⟨some 7, some 3, none, some "x y", some "q"⟩ (by decide)).1 (by decide))

/-- C9: the Noise Stripper maps the three listed example inputs to the
listed outputs. -/
theorem spec_C9_examples :
    replace_text [⟨some 1, none, none, some "Hello <b>world</b>", some "q"⟩] =
      [⟨some 1, none, none, some "Hello world", some "q"⟩] ∧
    replace_text [⟨some 2, none, none, some "cost is $5+3$ dollars", some "q"⟩] =
      [⟨some 2, none, none, some "cost is  dollars", some "q"⟩] ∧
    replace_text [⟨some 3, none, none, some "value is -42 units", some "q"⟩] =
      [⟨some 3, none, none, some "value is  units", some "q"⟩] := by
  decide

/-- C2 counterexample: on the two-row end-to-end table, lowercasing then
stripping does not produce the claimed cleaned strings; the bare greater-than
sign of the first row survives and both digits are stripped. -/
theorem spec_C2_counterexample :
    (replace_text (lowercase
      [⟨some 1, none, none, some "<p>Is 3 > 2?</p>", some "q"⟩,
       ⟨some 2, some 1, none, some "@bob: $x=1$", some "a"⟩])).map Row.text ≠
      [some "is  2?", some ": "] := by
  decide

/-- C2 as amended: on the two-row table, lowercase then strip yields the
cleaned strings "is  > ?" and ": ", the token sequences are non-empty, the
row count stays 2 and the category values are unchanged. -/
theorem spec_C2_end_to_end :
    (replace_text (lowercase
      [⟨some 1, none, none, some "<p>Is 3 > 2?</p>", some "q"⟩,
       ⟨some 2, some 1, none, some "@bob: $x=1$", some "a"⟩])).map Row.text =
      [some "is  > ?", some ": "] ∧
    (replace_text (lowercase
      [⟨some 1, none, none, some "<p>Is 3 > 2?</p>", some "q"⟩,
       ⟨some 2, some 1, none, some "@bob: $x=1$", some "a"⟩])).length = 2 ∧
    (replace_text (lowercase
      [⟨some 1, none, none, some "<p>Is 3 > 2?</p>", some "q"⟩,
       ⟨some 2, some 1, none, some "@bob: $x=1$", some "a"⟩])).map Row.category =
      [some "q", some "a"] ∧
    tokenize (replace_text (lowercase
      [⟨some 1, none, none, some "<p>Is 3 > 2?</p>", some "q"⟩,
       ⟨some 2, some 1, none, some "@bob: $x=1$", some "a"⟩])) defaultTokenizer =
      some [⟨some 1, none, none, some "is  > ?", some "q", ["is", ">", "?"]⟩,
            ⟨some 2, some 1, none, some ": ", some "a", [":"]⟩] ∧
    (["is", ">", "?"] : List String) ≠ [] ∧ ([":"] : List String) ≠ [] := by
  decide

/-- C10: tokenize hands the raw cell value to the tokenizer, null included;
with the default word tokenizer a null text makes the whole stage fail, and
in general the tokens of row i are exactly what the tokenizer returns on row
i's text. -/
theorem spec_C10_tokenize_null :
    (∀ (df : List Row) (r : Row), r ∈ df → r.text = none →
      tokenize df defaultTokenizer = none) ∧
    (∀ (df : List Row) (tokenizer : Option String → Option (List String))
       (out : List TokRow) (i : Nat) (r : Row),
      tokenize df tokenizer = some out → df[i]? = some r →
      (out[i]?).map TokRow.tokens = tokenizer r.text) := by
  constructor
  · intro df r hmem hnull
    unfold tokenize
    induction df with
    | nil => cases hmem
    | cons a rest ih =>
      rcases List.mem_cons.mp hmem with h | h
      · subst h
        simp only [tokenizeTable, hnull]
        rfl
      · simp only [tokenizeTable]
        cases ht : defaultTokenizer a.text with
        | none => rfl
        | some ts => rw [ih h]
  · intro df tok out i r h hi
    exact (tokenizeTable_some tok df out h).2.2 i r hi

theorem spec_C10_witness :
    tokenize [(⟨some 1, none, none, none, some "q"⟩ : Row)] defaultTokenizer = none ∧
    (([(⟨some 1, none, none, some "hi", some "q", ["hi"]⟩ : TokRow)])[0]?).map
      TokRow.tokens = defaultTokenizer (⟨some 1, none, none, some "hi", some "q"⟩ : Row).text :=
  ⟨spec_C10_tokenize_null.1 [⟨some 1, none, none, none, some "q"⟩]
      ⟨some 1, none, none, none, some "q"⟩ (by decide) rfl,
   spec_C10_tokenize_null.2 [⟨some 1, none, none, some "hi", some "q"⟩] defaultTokenizer
      [⟨some 1, none, none, some "hi", some "q", ["hi"]⟩] 0
      ⟨some 1, none, none, some "hi", some "q"⟩ (by decide) (by decide)⟩

/-- C7: preprocess runs Loader, Case Normalizer, Noise Stripper, Tokenizer in
that fixed order: on a successful load it returns exactly
tokenize(replace_text(lowercase(df))), and every stage failure is surfaced
unchanged. -/
theorem spec_C7_pipeline_order :
    ∀ (fs : String → Option (List RawRow)) (file_name : String),
      (∀ e, load_data fs file_name none = Except.error e →
        preprocess fs file_name = Except.error (PipelineError.load e)) ∧
      (∀ df, load_data fs file_name none = Except.ok df →
        (∀ out, tokenize (replace_text (lowercase df)) defaultTokenizer = some out →
          preprocess fs file_name = Except.ok out) ∧
        (tokenize (replace_text (lowercase df)) defaultTokenizer = none →
          preprocess fs file_name = Except.error PipelineError.tokenization)) := by
  intro fs name
  constructor
  · intro e h
    unfold preprocess
    simp only [h]
  · intro df h
    constructor
    · intro out hout
      unfold preprocess
      simp only [h, hout]
    · intro hnone
      unfold preprocess
      simp only [h, hnone]

theorem spec_C7_witness :
    preprocess
      (fun n => if n = "in.csv"
        then some [⟨some "1", none, none, some "Hi", some "q"⟩] else none)
      "in.csv" =
      Except.ok [⟨some 1, none, none, some "hi", some "q", ["hi"]⟩] :=
  ((spec_C7_pipeline_order
      (fun n => if n = "in.csv"
        then some [⟨some "1", none, none, some "Hi", some "q"⟩] else none)
      "in.csv").2 [⟨some 1, none, none, some "Hi", some "q"⟩] (by rfl)).1
    [⟨some 1, none, none, some "hi", some "q", ["hi"]⟩] (by rfl)

theorem coerceIntCell_error_eq (cell : Option String) (e : DataLoadError)
    (h : coerceIntCell cell = Except.error e) : e = DataLoadError.coercionFailure := by
  cases cell with
  | none => cases h
  | some s =>
    simp only [coerceIntCell] at h
    cases hp : parseInt64 s with
    | some n => rw [hp] at h; cases h
    | none =>
      rw [hp] at h
      simp only [Except.error.injEq] at h
      exact h.symm

theorem coerceRow_error_eq (r : RawRow) (e : DataLoadError)
    (h : coerceRow r = Except.error e) : e = DataLoadError.coercionFailure := by
  unfold coerceRow at h
  cases h1 : coerceIntCell r.post_id with
  | error e1 =>
    rw [h1] at h
    simp only [Except.error.injEq] at h
    rw [← h]
    exact coerceIntCell_error_eq _ _ h1
  | ok p =>
    rw [h1] at h
    cases h2 : coerceIntCell r.parent_id with
    | error e2 =>
      rw [h2] at h
      simp only [Except.error.injEq] at h
      rw [← h]
      exact coerceIntCell_error_eq _ _ h2
    | ok q =>
      rw [h2] at h
      cases h3 : coerceIntCell r.comment_id with
      | error e3 =>
        rw [h3] at h
        simp only [Except.error.injEq] at h
        rw [← h]
        exact coerceIntCell_error_eq _ _ h3
      | ok c => rw [h3] at h; cases h

theorem coerceRow_bad_post (r : RawRow) (s : String) (hs : r.post_id = some s)
    (hp : parseInt64 s = none) :
    coerceRow r = Except.error DataLoadError.coercionFailure := by
  have hcell : coerceIntCell r.post_id = Except.error DataLoadError.coercionFailure := by
    rw [hs]
    simp only [coerceIntCell, hp]
  unfold coerceRow
  rw [hcell]

theorem coerceRows_error_of_mem :
    ∀ (rows : List RawRow) (r : RawRow), r ∈ rows →
      coerceRow r = Except.error DataLoadError.coercionFailure →
      coerceRows rows = Except.error DataLoadError.coercionFailure := by
  intro rows r hmem hbad
  induction rows with
  | nil => cases hmem
  | cons a rest ih =>
    unfold coerceRows
    rcases List.mem_cons.mp hmem with h | h
    · subst h
      rw [hbad]
    · cases ha : coerceRow a with
      | error e =>
        have he := coerceRow_error_eq a e ha
        subst he
        rfl
      | ok row =>
        simp only [ih h]

/-- C4: the Loader fails with the load error when the file is missing or
unreadable or an identifier cell cannot be coerced to Int64, and the error is
surfaced unchanged to the caller of preprocess, aborting the run. -/
theorem spec_C4_load_failure :
    (∀ (fs : String → Option (List RawRow)) (file_name : String) (nrows : Option Nat),
      fs file_name = none →
      load_data fs file_name nrows = Except.error DataLoadError.fileNotFound) ∧
    (∀ (fs : String → Option (List RawRow)) (file_name : String)
       (rows : List RawRow) (r : RawRow) (s : String),
      fs file_name = some rows → r ∈ rows → r.post_id = some s →
      parseInt64 s = none →
      load_data fs file_name none = Except.error DataLoadError.coercionFailure) ∧
    (∀ (fs : String → Option (List RawRow)) (file_name : String) (e : DataLoadError),
      load_data fs file_name none = Except.error e →
      preprocess fs file_name = Except.error (PipelineError.load e)) := by
  refine ⟨?_, ?_, ?_⟩
  · intro fs name nrows h
    unfold load_data
    rw [h]
  · intro fs name rows r s hfs hmem hpost hparse
    unfold load_data
    rw [hfs]
    exact coerceRows_error_of_mem rows r hmem (coerceRow_bad_post r s hpost hparse)
  · intro fs name e h
    unfold preprocess
    rw [h]

theorem spec_C4_witness :
    load_data (fun _ => none) "missing.csv" none =
      Except.error DataLoadError.fileNotFound ∧
    load_data (fun _ => some [⟨some "abc", none, none, some "t", some "q"⟩])
      "bad.csv" none = Except.error DataLoadError.coercionFailure ∧
    preprocess (fun _ => none) "missing.csv" =
      Except.error (PipelineError.load DataLoadError.fileNotFound) :=
  ⟨spec_C4_load_failure.1 (fun _ => none) "missing.csv" none rfl,
   spec_C4_load_failure.2.1 (fun _ => some [⟨some "abc", none, none, some "t", some "q"⟩])
     "bad.csv" [⟨some "abc", none, none, some "t", some "q"⟩]
     ⟨some "abc", none, none, some "t", some "q"⟩ "abc" rfl (by decide) rfl (by decide),
   spec_C4_load_failure.2.2 (fun _ => none) "missing.csv" DataLoadError.fileNotFound
     (spec_C4_load_failure.1 (fun _ => none) "missing.csv" none rfl)⟩

theorem takeWhile_length_le (p : Char → Bool) :
    ∀ l : List Char, (l.takeWhile p).length ≤ l.length := by
  intro l
  induction l with
  | nil => simp
  | cons c rest ih =>
    rw [List.takeWhile_cons]
    by_cases h : p c
    · simp only [h, if_pos, List.length_cons]
      omega
    · simp [h]

theorem findClose_lt (cl : Char) :
    ∀ (l : List Char) (k : Nat), findClose cl l = some k → k < l.length := by
  intro l
  induction l with
  | nil => intro k h; cases h
  | cons c rest ih =>
    intro k h
    unfold findClose at h
    by_cases h1 : c = cl
    · rw [if_pos h1] at h
      simp only [Option.some.injEq] at h
      simp only [List.length_cons]
      omega
    · rw [if_neg h1] at h
      by_cases h2 : c = '\n'
      · rw [if_pos h2] at h; cases h
      · rw [if_neg h2] at h
        cases hf : findClose cl rest with
        | none => rw [hf] at h; cases h
        | some m =>
          rw [hf] at h
          simp only [Option.map_some', Option.some.injEq] at h
          have := ih m hf
          simp only [List.length_cons]
          omega

theorem lastBracket_lt :
    ∀ (l : List Char) (j : Nat), lastBracket l = some j → j < l.length := by
  intro l
  induction l with
  | nil => intro j h; cases h
  | cons c rest ih =>
    intro j h
    unfold lastBracket at h
    cases hr : lastBracket rest with
    | some m =>
      rw [hr] at h
      simp only [Option.some.injEq] at h
      have := ih m hr
      simp only [List.length_cons]
      omega
    | none =>
      rw [hr] at h
      by_cases hc : c = ']'
      · rw [if_pos hc] at h
        simp only [Option.some.injEq] at h
        simp only [List.length_cons]
        omega
      · rw [if_neg hc] at h; cases h

theorem tagClose_lt (rest : List Char) (j : Nat) (h : tagClose rest = some j) :
    j < rest.length := by
  unfold tagClose at h
  cases hl : lastBracket (rest.takeWhile (fun c => c != '\n')) with
  | none => rw [hl] at h; cases h
  | some m =>
    rw [hl, Option.some_bind] at h
    by_cases hm : m = 0
    · rw [if_pos hm] at h; cases h
    · rw [if_neg hm] at h
      simp only [Option.some.injEq] at h
      have h1 := lastBracket_lt _ _ hl
      have h2 := takeWhile_length_le (fun c => c != '\n') rest
      omega

theorem unionMatch_le (l : List Char) (n : Nat) (h : unionMatch l = some n) :
    1 ≤ n ∧ n ≤ l.length := by
  cases l with
  | nil => cases h
  | cons c rest =>
    simp only [unionMatch] at h
    simp only [List.length_cons]
    by_cases h1 : c = '<'
    · rw [if_pos h1] at h
      cases hf : findClose '>' rest with
      | none => rw [hf] at h; cases h
      | some k =>
        rw [hf] at h
        simp only [Option.map_some', Option.some.injEq] at h
        have := findClose_lt '>' rest k hf
        omega
    · rw [if_neg h1] at h
      by_cases h2 : c = '$'
      · rw [if_pos h2] at h
        cases hf : findClose '$' rest with
        | none => rw [hf] at h; cases h
        | some k =>
          rw [hf] at h
          simp only [Option.map_some', Option.some.injEq] at h
          have := findClose_lt '$' rest k hf
          omega
      · rw [if_neg h2] at h
        by_cases h3 : c = '\n'
        · rw [if_pos h3] at h
          simp only [Option.some.injEq] at h
          omega
        · rw [if_neg h3] at h
          by_cases h4 : c = '@'
          · rw [if_pos h4] at h
            by_cases h5 : (rest.takeWhile isWordChar).length = 0
            · rw [if_pos h5] at h; cases h
            · rw [if_neg h5] at h
              simp only [Option.some.injEq] at h
              have := takeWhile_length_le isWordChar rest
              omega
          · rw [if_neg h4] at h
            by_cases h6 : c = '+' ∨ c = '-'
            · rw [if_pos h6] at h
              by_cases h7 : (rest.takeWhile isDigitChar).length = 0
              · rw [if_pos h7] at h; cases h
              · rw [if_neg h7] at h
                simp only [Option.some.injEq] at h
                have := takeWhile_length_le isDigitChar rest
                omega
            · rw [if_neg h6] at h
              by_cases h8 : isDigitChar c = true
              · rw [if_pos h8] at h
                simp only [Option.some.injEq] at h
                have := takeWhile_length_le isDigitChar rest
                omega
              · rw [if_neg h8] at h
                by_cases h9 : c = '['
                · rw [if_pos h9] at h
                  cases ht : tagClose rest with
                  | none => rw [ht] at h; cases h
                  | some j =>
                    rw [ht] at h
                    simp only [Option.map_some', Option.some.injEq] at h
                    have := tagClose_lt rest j ht
                    omega
                · rw [if_neg h9] at h; cases h

theorem takeWhile_append_stop (p : Char → Bool) (b : Char) (hb : p b = false) :
    ∀ (a u : List Char), (a ++ b :: u).takeWhile p = a.takeWhile p := by
  intro a u
  induction a with
  | nil => simp [List.takeWhile_cons, hb]
  | cons c a' ih =>
    simp only [List.cons_append, List.takeWhile_cons]
    by_cases h : p c
    · simp [h, ih]
    · simp [h]

theorem takeWhile_no_newline :
    ∀ u : List Char, '\n' ∉ u → u.takeWhile (fun c => c != '\n') = u := by
  intro u
  induction u with
  | nil => intro _; rfl
  | cons c rest ih =>
    intro h
    simp only [List.mem_cons, not_or] at h
    obtain ⟨h1, h2⟩ := h
    rw [List.takeWhile_cons]
    have hc : (c != '\n') = true := by
      simp [bne_iff_ne]
      exact fun hh => h1 hh.symm
    simp [hc, ih h2]

theorem firstLB_decomp :
    ∀ (s : List Char) (i : Nat), firstLB s = some i →
      ∃ p u, s = p ++ '[' :: u ∧ p.length = i ∧ '[' ∉ p := by
  intro s
  induction s with
  | nil => intro i h; cases h
  | cons c rest ih =>
    intro i h
    unfold firstLB at h
    by_cases hc : c = '['
    · rw [if_pos hc] at h
      simp only [Option.some.injEq] at h
      subst hc
      exact ⟨[], rest, rfl, h, by simp⟩
    · rw [if_neg hc] at h
      cases hf : firstLB rest with
      | none => rw [hf] at h; cases h
      | some m =>
        rw [hf] at h
        simp only [Option.map_some', Option.some.injEq] at h
        obtain ⟨p, u, hsu, hlen, hnot⟩ := ih m hf
        refine ⟨c :: p, u, by rw [hsu]; rfl, by simp [hlen, ← h], ?_⟩
        intro hm
        rcases List.mem_cons.mp hm with hh | hh
        · exact hc hh.symm
        · exact hnot hh

theorem lastBracket_none :
    ∀ l : List Char, lastBracket l = none ↔ ']' ∉ l := by
  intro l
  induction l with
  | nil => simp [lastBracket]
  | cons c rest ih =>
    unfold lastBracket
    cases hr : lastBracket rest with
    | some m =>
      have hmem : ']' ∈ rest := by
        by_contra hn
        simp [ih.mpr hn] at hr
      simp [hmem]
    | none =>
      by_cases hc : c = ']'
      · subst hc
        simp
      · simp only [if_neg hc]
        simp [List.mem_cons, ih.mp hr, Ne.symm hc]

theorem lastBracket_append (a b : List Char) (hb : ']' ∉ b) :
    lastBracket (a ++ ']' :: b) = some a.length := by
  induction a with
  | nil => simp [lastBracket, (lastBracket_none b).mpr hb]
  | cons c a' ih => simp [lastBracket, ih]

theorem lastBracket_decomp :
    ∀ (s : List Char) (j : Nat), lastBracket s = some j →
      ∃ a b, s = a ++ ']' :: b ∧ a.length = j ∧ ']' ∉ b := by
  intro s
  induction s with
  | nil => intro j h; cases h
  | cons c rest ih =>
    intro j h
    unfold lastBracket at h
    cases hr : lastBracket rest with
    | some m =>
      rw [hr] at h
      simp only [Option.some.injEq] at h
      obtain ⟨a, b, hs, hlen, hnb⟩ := ih m hr
      exact ⟨c :: a, b, by rw [hs]; rfl, by simp [hlen, ← h], hnb⟩
    | none =>
      rw [hr] at h
      by_cases hc : c = ']'
      · rw [if_pos hc] at h
        simp only [Option.some.injEq] at h
        subst hc
        exact ⟨[], rest, rfl, h, (lastBracket_none rest).mp hr⟩
      · rw [if_neg hc] at h; cases h

theorem subAux_eq_drop :
    ∀ (l : List Char) (k : Nat), subAux k l = subAll (l.drop k) := by
  intro l
  induction l with
  | nil => intro k; cases k <;> rfl
  | cons c rest ih =>
    intro k
    cases k with
    | zero => rfl
    | succ m =>
      rw [List.drop_succ_cons]
      exact ih m

theorem unionMatch_append_ctx (c : Char) (q u : List Char)
    (h1 : c ≠ '<') (h2 : c ≠ '$') (h3 : c ≠ '\n') (h4 : c ≠ '[') :
    unionMatch (c :: (q ++ '[' :: u)) = unionMatch (c :: q) := by
  simp only [unionMatch, if_neg h1, if_neg h2, if_neg h3, if_neg h4,
    takeWhile_append_stop isWordChar '[' (by decide),
    takeWhile_append_stop isDigitChar '[' (by decide)]

theorem unionMatch_bracket (u : List Char) (j : Nat) (hnl : '\n' ∉ u)
    (hj : lastBracket u = some j) (hj1 : 1 ≤ j) :
    unionMatch ('[' :: u) = some (j + 2) := by
  have hred : unionMatch ('[' :: u) = (tagClose u).map (· + 2) := rfl
  rw [hred]
  unfold tagClose
  rw [takeWhile_no_newline u hnl, hj, Option.some_bind, if_neg (by omega : ¬ j = 0)]
  rfl

theorem subAll_append_bracket :
    ∀ (N : Nat) (p u : List Char), p.length ≤ N →
      '<' ∉ p → '$' ∉ p → '\n' ∉ p → '[' ∉ p →
      subAll (p ++ '[' :: u) = subAll p ++ subAll ('[' :: u) := by
  intro N
  induction N with
  | zero =>
    intro p u hlen _ _ _ _
    cases p with
    | nil => rfl
    | cons c q => simp at hlen
  | succ N ih =>
    intro p u hlen hlt hdl hnl hlb
    cases p with
    | nil => rfl
    | cons c q =>
      have hc1 : c ≠ '<' := fun h => hlt (h ▸ List.mem_cons_self c q)
      have hc2 : c ≠ '$' := fun h => hdl (h ▸ List.mem_cons_self c q)
      have hc3 : c ≠ '\n' := fun h => hnl (h ▸ List.mem_cons_self c q)
      have hc4 : c ≠ '[' := fun h => hlb (h ▸ List.mem_cons_self c q)
      have ht1 : '<' ∉ q := fun h => hlt (List.mem_cons_of_mem c h)
      have ht2 : '$' ∉ q := fun h => hdl (List.mem_cons_of_mem c h)
      have ht3 : '\n' ∉ q := fun h => hnl (List.mem_cons_of_mem c h)
      have ht4 : '[' ∉ q := fun h => hlb (List.mem_cons_of_mem c h)
      simp only [List.length_cons] at hlen
      show subAux 0 (c :: (q ++ '[' :: u)) = subAll (c :: q) ++ subAll ('[' :: u)
      rw [show subAux 0 (c :: (q ++ '[' :: u)) =
          (match unionMatch (c :: (q ++ '[' :: u)) with
           | some n => subAux (n - 1) (q ++ '[' :: u)
           | none => c :: subAux 0 (q ++ '[' :: u)) from rfl]
      rw [unionMatch_append_ctx c q u hc1 hc2 hc3 hc4]
      rw [show (subAll (c :: q) : List Char) =
          (match unionMatch (c :: q) with
           | some n => subAux (n - 1) q
           | none => c :: subAux 0 q) from rfl]
      cases hm : unionMatch (c :: q) with
      | none =>
        show c :: subAux 0 (q ++ '[' :: u) = (c :: subAux 0 q) ++ subAll ('[' :: u)
        rw [List.cons_append]
        have hq : subAll (q ++ '[' :: u) = subAll q ++ subAll ('[' :: u) :=
          ih q u (by omega) ht1 ht2 ht3 ht4
        exact congrArg (c :: ·) hq
      | some n =>
        show subAux (n - 1) (q ++ '[' :: u) = subAux (n - 1) q ++ subAll ('[' :: u)
        obtain ⟨hn1, hn2⟩ := unionMatch_le (c :: q) n hm
        simp only [List.length_cons] at hn2
        rw [subAux_eq_drop, subAux_eq_drop,
          List.drop_append_of_le_length (by omega : n - 1 ≤ q.length)]
        refine ih (q.drop (n - 1)) u (by simp only [List.length_drop]; omega) ?_ ?_ ?_ ?_
        · exact fun h => ht1 (List.drop_subset _ _ h)
        · exact fun h => ht2 (List.drop_subset _ _ h)
        · exact fun h => ht3 (List.drop_subset _ _ h)
        · exact fun h => ht4 (List.drop_subset _ _ h)

/-- C3 counterexample: a text with two bracket spans separated by a newline
is stripped to a string that keeps the character standing between the spans,
so no single deleted match spans from the first opening bracket to the last
closing bracket there; likewise when the first opening bracket sits inside
an HTML-tag match the bracket match starts later than the first bracket. -/
theorem spec_C3_counterexample :
    (firstLB "x[a]\ny[b]z".data = some 1 ∧
      lastBracket "x[a]\ny[b]z".data = some 8 ∧
      subAll "x[a]\ny[b]z".data = "xyz".data ∧
      subAll "x[a]\ny[b]z".data ≠
        subAll ("x[a]\ny[b]z".data.take 1) ++ subAll ("x[a]\ny[b]z".data.drop 9)) ∧
    (firstLB "<[a]>x[b]".data = some 1 ∧
      lastBracket "<[a]>x[b]".data = some 8 ∧
      subAll "<[a]>x[b]".data = "x".data ∧
      subAll "<[a]>x[b]".data ≠
        subAll ("<[a]>x[b]".data.take 1) ++ subAll ("<[a]>x[b]".data.drop 9)) := by
  refine ⟨⟨by decide, by decide, by decide, by decide⟩,
    ⟨by decide, by decide, by decide, by decide⟩⟩

/-- C3 as amended: on a text containing no newline and no opening angle or
dollar character, with its first opening bracket at least two positions
before its last closing bracket, the stripper deletes the whole span between
them as one single greedy match (multiple bracket spans collapse into one);
in particular stripping the listed example input returns the listed output. -/
theorem spec_C3_greedy_bracket :
    (∀ (s : String) (i j : Nat),
      '\n' ∉ s.data → '<' ∉ s.data → '$' ∉ s.data →
      firstLB s.data = some i → lastBracket s.data = some j → i + 2 ≤ j →
      replaceStr s =
        String.mk (subAll (s.data.take i) ++ subAll (s.data.drop (j + 1)))) ∧
    replace_text [⟨none, none, none, some "see [ref1][ref2] here", none⟩] =
      [⟨none, none, none, some "see  here", none⟩] := by
  constructor
  · intro s i j hnl hlt hdl hfst hlst hij
    unfold replaceStr
    congr 1
    obtain ⟨p, u0, hs, hplen, hpnb⟩ := firstLB_decomp s.data i hfst
    obtain ⟨a, b, hs2, halen, hbnb⟩ := lastBracket_decomp s.data j hlst
    have hu0 : u0 = s.data.drop (i + 1) := by
      rw [hs, show p ++ '[' :: u0 = (p ++ ['[']) ++ u0 from by simp,
        show i + 1 = (p ++ ['[']).length from by simp [hplen], List.drop_left]
    have htake : p = s.data.take i := by
      rw [hs, ← hplen, List.take_left]
    have halen2 : i + 1 ≤ a.length := by omega
    have hlast_u0 : lastBracket u0 = some (j - i - 1) := by
      have hdrop : u0 = a.drop (i + 1) ++ ']' :: b := by
        rw [hu0, hs2, List.drop_append_of_le_length halen2]
      rw [hdrop, lastBracket_append _ _ hbnb, List.length_drop, halen]
      exact congrArg some (by omega)
    have hnlu0 : '\n' ∉ u0 := fun h =>
      hnl (by rw [hs]; exact List.mem_append_right _ (List.mem_cons_of_mem _ h))
    have hp1 : '<' ∉ p := fun h => hlt (by rw [hs]; exact List.mem_append_left _ h)
    have hp2 : '$' ∉ p := fun h => hdl (by rw [hs]; exact List.mem_append_left _ h)
    have hp3 : '\n' ∉ p := fun h => hnl (by rw [hs]; exact List.mem_append_left _ h)
    have hmatch := unionMatch_bracket u0 (j - i - 1) hnlu0 hlast_u0 (by omega)
    have hstep : subAll ('[' :: u0) = subAll (s.data.drop (j + 1)) := by
      rw [show (subAll ('[' :: u0) : List Char) =
          (match unionMatch ('[' :: u0) with
           | some n => subAux (n - 1) u0
           | none => '[' :: subAux 0 u0) from rfl]
      rw [hmatch]
      show subAux (j - i - 1 + 2 - 1) u0 = subAll (s.data.drop (j + 1))
      rw [show j - i - 1 + 2 - 1 = j - i from by omega]
      rw [subAux_eq_drop, hu0, List.drop_drop,
        show i + 1 + (j - i) = j + 1 from by omega]
    rw [← htake, ← hstep]
    conv_lhs => rw [hs]
    exact subAll_append_bracket p.length p u0 le_rfl hp1 hp2 hp3 hpnb
  · decide

theorem spec_C3_witness :
    replaceStr "see [ref1][ref2] here" =
      String.mk (subAll ("see [ref1][ref2] here".data.take 4) ++
        subAll ("see [ref1][ref2] here".data.drop 16)) :=
  spec_C3_greedy_bracket.1 "see [ref1][ref2] here" 4 15 (by decide) (by decide)
    (by decide) (by decide) (by decide) (by decide)

/-- The spec's tokenization example, settled against the modelled default
tokenizer. -/
theorem word_tokenize_example :
    word_tokenize "Hello, world!" = ["Hello", ",", "world", "!"] := by decide
